import Mathlib

/-!
# Verification of the flexo streaming tool-call detection pipeline

This file gives a shallow embedding, in Lean 4, of the parts of the
`flexo` repository that its specification talks about:

* the Aho–Corasick automaton (`src/llm/pattern_detection/aho_corasick.py`),
* the buffered stream processors
  (`base_buffered_processor.py`, `buffered_processor_standard.py`,
  `buffered_processor_normalized.py`),
* the manual and vendor tool-call detection strategies
  (`src/llm/tool_detection/…`),
* the JSON tool-call parser (`src/tools/core/parsers/json_tool_call_parser.py`),
* the streaming chat agent's state machine (`src/agent/chat_agent_streaming.py`).

Python strings are modelled as `List Char`; Python `dict`s (which preserve
insertion order, and on which the source iterates) are modelled as
association lists.  Machine integers play no role; Python's `int` is `Int`
(or `Nat` where the source value is provably non-negative).  Slicing and
indexing follow Python semantics, including negative indices, via the
`pySliceTo` / `pySliceFrom` / `pyGetD` helpers below.  Fallible
constructors are modelled with `Option` / `Except`.
-/

set_option autoImplicit false

namespace Flexo

/-- Python strings are modelled as lists of characters. -/
abbrev Str := List Char

/-- Clamp a Python slice index into `[0, len]`: negative indices count from
the end, indices past either end are clamped (Python slice semantics). -/
def pyBound (len : Nat) (i : Int) : Nat :=
  if i < 0 then ((len : Int) + i).toNat else min i.toNat len

/-- `s[:i]` with Python slice semantics. -/
def pySliceTo (s : Str) (i : Int) : Str :=
  s.take (pyBound s.length i)

/-- `s[i:]` with Python slice semantics. -/
def pySliceFrom (s : Str) (i : Int) : Str :=
  s.drop (pyBound s.length i)

/-- `l[i]` with Python index semantics: a negative index counts from the
end.  An index that is out of range raises `IndexError` in Python; it is
not reachable in any state this development evaluates, and is given the
default `d` here. -/
def pyGetD {α : Type} (l : List α) (i : Int) (d : α) : α :=
  if i < 0 then l.getD ((l.length : Int) + i).toNat d else l.getD i.toNat d

/-! ## Aho–Corasick automaton (`aho_corasick.py`)

The Python object holds three parallel lists indexed by state number:
`next_states` (per-state transition dict), `fail` and `output`, plus the
mutable `current_state`.  The transition dicts are modelled as
insertion-ordered association lists, as built by `_insert`. -/

/-- The trie/automaton tables of `AhoCorasickAutomaton`
(`next_states`, `fail`, `output`). -/
structure Machine where
  nextStates : List (List (Char × Nat))
  fail : List Nat
  output : List (List String)
  deriving Repr, DecidableEq

/-- Transition lookup `next_states[s].get(c)` on one state's dict. -/
def lookupTrans (trans : List (Char × Nat)) (c : Char) : Option Nat :=
  match trans with
  | [] => none
  | (c', s) :: rest => if c = c' then some s else lookupTrans rest c

/-- One step of `_insert`'s loop body: follow (or create) the edge for
character `c` out of state `cur`. -/
def insertChar (m : Machine) (cur : Nat) (c : Char) : Machine × Nat :=
  match lookupTrans (m.nextStates.getD cur []) c with
  | some nxt => (m, nxt)
  | none =>
      let newIdx := m.nextStates.length
      let m' : Machine :=
        { nextStates :=
            (m.nextStates ++ [[]]).set cur
              ((m.nextStates.getD cur []) ++ [(c, newIdx)])
          fail := m.fail ++ [0]
          output := m.output ++ [[]] }
      (m', newIdx)

/-- `AhoCorasickAutomaton._insert`: walk `pattern_str` from state `cur`
creating missing nodes, then record `pattern_name` at the final state. -/
def insertFrom (m : Machine) (cur : Nat) : Str → String → Machine
  | [], name => { m with output := m.output.set cur (m.output.getD cur [] ++ [name]) }
  | c :: cs, name =>
      let (m', nxt) := insertChar m cur c
      insertFrom m' nxt cs name

/-- Insert one full pattern starting at the root (state 0). -/
def insertPattern (m : Machine) (p : String × Str) : Machine :=
  insertFrom m 0 p.2 p.1

/-- The inner `while f > 0 and char not in self.next_states[f]: f = self.fail[f]`
loop (used both when building failure links and when searching).  The loop
terminates because failure links point to states of strictly smaller trie
depth; `fuel` (instantiated with the state count) bounds the chain. -/
def failChain (m : Machine) (c : Char) : Nat → Nat → Nat
  | 0, f => f
  | fuel + 1, f =>
      if f > 0 ∧ (lookupTrans (m.nextStates.getD f []) c).isNone then
        failChain m c fuel (m.fail.getD f 0)
      else f

/-- Body of the BFS loop in `_build_machine` for a single edge
`(c, nxt)` out of `state`: compute the failure link of `nxt` and extend
its output list. -/
def bfsEdge (state : Nat) (m : Machine) (edge : Char × Nat) : Machine :=
  let (c, nxt) := edge
  let f0 := failChain m c m.fail.length (m.fail.getD state 0)
  let f := (lookupTrans (m.nextStates.getD f0 []) c).getD 0
  { m with
      fail := m.fail.set nxt f
      output := m.output.set nxt (m.output.getD nxt [] ++ m.output.getD f []) }

/-- The BFS `while queue:` loop of `_build_machine`.  Each non-root trie
node is enqueued exactly once, so `fuel` (instantiated with the state
count) bounds the number of dequeues. -/
def bfsLoop (fuel : Nat) (m : Machine) (queue : List Nat) : Machine :=
  match fuel, queue with
  | 0, _ => m
  | _, [] => m
  | fuel + 1, state :: rest =>
      let edges := m.nextStates.getD state []
      let m' := edges.foldl (bfsEdge state) m
      bfsLoop fuel m' (rest ++ edges.map Prod.snd)

/-- `AhoCorasickAutomaton._build_machine`: root node, trie insertion of
every pattern in dict order, then failure-link construction by BFS. -/
def buildMachine (patterns : List (String × Str)) : Machine :=
  let m0 : Machine := { nextStates := [[]], fail := [0], output := [[]] }
  let m1 := patterns.foldl insertPattern m0
  let rootChildren := (m1.nextStates.getD 0 []).map Prod.snd
  bfsLoop m1.nextStates.length m1 rootChildren

/-- The whole `AhoCorasickAutomaton` object: the pattern dict, the tables
and the mutable `current_state`. -/
structure Automaton where
  patterns : List (String × Str)
  machine : Machine
  currentState : Nat
  deriving Repr, DecidableEq

/-- `AhoCorasickAutomaton.__init__` (never fails; accepts any pattern
dict, including an empty one and zero-length patterns). -/
def mkAutomaton (patterns : List (String × Str)) : Automaton :=
  { patterns := patterns, machine := buildMachine patterns, currentState := 0 }

/-- `AhoCorasickAutomaton.reset_state`. -/
def Automaton.resetState (a : Automaton) : Automaton :=
  { a with currentState := 0 }

/-- One character of `search_chunk`'s loop: advance `current_state` and
report the output patterns of the state reached. -/
def acStep (m : Machine) (st : Nat) (c : Char) : Nat :=
  let st' := failChain m c m.fail.length st
  (lookupTrans (m.nextStates.getD st' []) c).getD 0

/-- `AhoCorasickAutomaton.search_chunk` on a machine: returns the found
`(end_index, pattern_name)` pairs in discovery order together with the
final `current_state`.  The Python method mutates `self.current_state`;
here the updated state is returned. -/
def searchFrom (m : Machine) (st : Nat) (i : Nat) : Str → List (Nat × String) × Nat
  | [] => ([], st)
  | c :: cs =>
      let st' := acStep m st c
      let here := (m.output.getD st' []).map (fun name => (i, name))
      let (found, final) := searchFrom m st' (i + 1) cs
      (here ++ found, final)

/-- `search_chunk` of a whole `Automaton` value. -/
def Automaton.searchChunk (a : Automaton) (chunk : Str) :
    List (Nat × String) × Automaton :=
  let (found, st') := searchFrom a.machine a.currentState 0 chunk
  (found, { a with currentState := st' })

/-! ## `PatternMatchResult` (`data_models/streaming.py`) -/

/-- The pydantic `PatternMatchResult` model; every field is optional with
the defaults used by the processors. -/
structure PatternMatchResult where
  output : Option Str := none
  pattern_name : Option String := none
  matched : Bool := false
  text_with_tool_call : Option Str := none
  tool_call_message : Option String := none
  error : Option String := none
  deriving Repr, DecidableEq

/-! ## Standard buffered processor (`buffered_processor_standard.py`)

The object state is the automaton (tables plus `current_state`), the
`max_pattern_len` computed at construction, and the base class's
`trailing_buffer_original`. -/

/-- `min(matches, key=lambda x: x[0])`: Python's `min` keeps the first
element whose key is minimal. -/
def pyMinByEnd (first : Nat × String) (rest : List (Nat × String)) : Nat × String :=
  rest.foldl (fun best x => if x.1 < best.1 then x else best) first

/-- Pattern-dict lookup `self.automaton.patterns[pattern_name]`. -/
def lookupPattern (patterns : List (String × Str)) (name : String) : Str :=
  match patterns with
  | [] => []
  | (n, p) :: rest => if n = name then p else lookupPattern rest name

/-- `AhoCorasickBufferedProcessor`: automaton, `max_pattern_len`,
`tool_call_message` and the inherited `trailing_buffer_original`. -/
structure BufferedProcessor where
  automaton : Automaton
  maxPatternLen : Nat
  toolCallMessage : String
  trailing : Str
  deriving Repr, DecidableEq

/-- `AhoCorasickBufferedProcessor.__init__` for an already-loaded pattern
dict.  `max(len(p) for p in raw_patterns.values())` raises `ValueError`
on an empty dict, modelled as `none`. -/
def mkBufferedProcessor (patterns : List (String × Str))
    (toolCallMessage : String := "Tool call detected.") : Option BufferedProcessor :=
  match patterns.map (fun p => p.2.length) with
  | [] => none
  | l :: ls =>
      some { automaton := (mkAutomaton patterns).resetState
             maxPatternLen := ls.foldl max l
             toolCallMessage := toolCallMessage
             trailing := [] }

/-- `AhoCorasickBufferedProcessor.process_chunk_impl`: result, new
trailing text, and the updated automaton (whose `current_state` the
search mutates and a match resets). -/
def processChunkImplStd (p : BufferedProcessor) (combined : Str) :
    PatternMatchResult × Str × Automaton :=
  let (found, auto') := p.automaton.searchChunk combined
  match found with
  | [] =>
      let keepLen : Int := min ((p.maxPatternLen : Int) - 1) (combined.length : Int)
      if keepLen > 0 then
        ({ output := some (pySliceTo combined (-keepLen)) },
         pySliceFrom combined (-keepLen), auto')
      else
        ({ output := some combined }, [], auto')
  | m :: ms =>
      let (earliestEnd, patternName) := pyMinByEnd m ms
      let patternStr := lookupPattern p.automaton.patterns patternName
      let matchStart : Int := (earliestEnd : Int) - (patternStr.length : Int) + 1
      ({ matched := true
         pattern_name := some patternName
         tool_call_message := some p.toolCallMessage
         output := some (pySliceTo combined matchStart)
         text_with_tool_call := some (pySliceFrom combined matchStart) },
       [], auto'.resetState)

/-- `BaseBufferedProcessor.process_chunk` for the standard processor:
prepend the trailing buffer, run the subclass implementation, store the
new trailing text. -/
def BufferedProcessor.processChunk (p : BufferedProcessor) (chunk : Str) :
    PatternMatchResult × BufferedProcessor :=
  let combined := p.trailing ++ chunk
  let (result, newTrailing, auto') := processChunkImplStd p combined
  (result, { p with trailing := newTrailing, automaton := auto' })

/-- `BaseBufferedProcessor.flush_buffer`. -/
def BufferedProcessor.flushBuffer (p : BufferedProcessor) :
    PatternMatchResult × BufferedProcessor :=
  if p.trailing ≠ [] then
    ({ output := some p.trailing }, { p with trailing := [] })
  else
    ({}, p)

/-- `BaseBufferedProcessor.reset_states` (note: it clears only the
trailing buffer; the automaton's `current_state` is untouched). -/
def BufferedProcessor.resetStates (p : BufferedProcessor) : BufferedProcessor :=
  { p with trailing := [] }

/-! ## Whitespace-normalized variant
(`pattern_utils.normalize_and_map`, `aho_corasick_normalized.py`,
`buffered_processor_normalized.py`) -/

/-- Python `str.isspace` on the ASCII range (the characters appearing in
this development). -/
def pyIsSpace (c : Char) : Bool :=
  c = ' ' ∨ c = '\t' ∨ c = '\n' ∨ c = '\r' ∨ c = '\x0b' ∨ c = '\x0c'

/-- `normalize_and_map`: drop whitespace characters and record, for each
kept character, its index in the original text. -/
def normalizeAndMap (text : Str) : Str × List Nat :=
  let rec go (idx : Nat) : Str → Str × List Nat
    | [] => ([], [])
    | c :: cs =>
        let (norm, imap) := go (idx + 1) cs
        if pyIsSpace c then (norm, imap) else (c :: norm, idx :: imap)
  go 0 text

/-- `AhoCorasickAutomatonNormalized`: normalized pattern dict, pattern
lengths and the wrapped automaton built over the normalized patterns. -/
structure AutomatonNormalized where
  normalizedPatterns : List (String × Str)
  patternLengths : List (String × Nat)
  automaton : Automaton
  deriving Repr, DecidableEq

/-- `AhoCorasickAutomatonNormalized.__init__`. -/
def mkAutomatonNormalized (patterns : List (String × Str)) : AutomatonNormalized :=
  let normalized := patterns.map (fun p => (p.1, (normalizeAndMap p.2).1))
  { normalizedPatterns := normalized
    patternLengths := normalized.map (fun p => (p.1, p.2.length))
    automaton := mkAutomaton normalized }

/-- `get_pattern_length` (`self.pattern_lengths[pattern_name]`). -/
def AutomatonNormalized.getPatternLength (a : AutomatonNormalized) (name : String) : Nat :=
  match a.patternLengths.lookup name with
  | some n => n
  | none => 0

/-- `AhoCorasickBufferedProcessorNormalized`'s object state. -/
structure BufferedProcessorNorm where
  automaton : AutomatonNormalized
  maxPatternLen : Nat
  toolCallMessage : String
  trailing : Str
  deriving Repr, DecidableEq

/-- `AhoCorasickBufferedProcessorNormalized.__init__`:
`max_pattern_len` is the maximum length over the *normalized* patterns
(`ValueError`, i.e. `none`, on an empty dict). -/
def mkBufferedProcessorNorm (patterns : List (String × Str))
    (toolCallMessage : String := "Tool call detected.") : Option BufferedProcessorNorm :=
  let auto := mkAutomatonNormalized patterns
  match auto.normalizedPatterns.map (fun p => p.2.length) with
  | [] => none
  | l :: ls =>
      some { automaton := { auto with automaton := auto.automaton.resetState }
             maxPatternLen := ls.foldl max l
             toolCallMessage := toolCallMessage
             trailing := [] }

/-- One iteration of the earliest-match selection loop of the
normalized `process_chunk_impl`: keep the candidate whose *original*
end index is strictly smallest (the first such match on ties),
remembering its pattern name and normalized start index. -/
def earliestNormStep (a : AutomatonNormalized) (indexMap : List Nat)
    (acc : Option (Nat × String × Int)) (m : Nat × String) :
    Option (Nat × String × Int) :=
  let patLen := a.getPatternLength m.2
  let normStart : Int := (m.1 : Int) - (patLen : Int) + 1
  let originalEnd := indexMap.getD m.1 0
  match acc with
  | none => some (originalEnd, m.2, normStart)
  | some best =>
      if originalEnd < best.1 then some (originalEnd, m.2, normStart) else some best

/-- The earliest-match selection loop of the normalized
`process_chunk_impl` (the `for norm_end_idx, pattern_name in matches`
loop). -/
def earliestNormMatch (a : AutomatonNormalized) (indexMap : List Nat)
    (ms : List (Nat × String)) : Option (Nat × String × Int) :=
  ms.foldl (earliestNormStep a indexMap) none

/-- `AhoCorasickBufferedProcessorNormalized.process_chunk_impl`. -/
def processChunkImplNorm (p : BufferedProcessorNorm) (combined : Str) :
    PatternMatchResult × Str × AutomatonNormalized :=
  let (normCombined, indexMap) := normalizeAndMap combined
  let (found, auto') := p.automaton.automaton.searchChunk normCombined
  match found with
  | [] =>
      let keepLen : Int := min ((p.maxPatternLen : Int) - 1) (normCombined.length : Int)
      if keepLen > 0 then
        let origKeepStart := indexMap.getD (normCombined.length - keepLen.toNat) 0
        ({ output := some (combined.take origKeepStart) },
         combined.drop origKeepStart, { p.automaton with automaton := auto' })
      else
        ({ output := some combined }, [], { p.automaton with automaton := auto' })
  | ms =>
      match earliestNormMatch p.automaton indexMap ms with
      | none => ({}, [], { p.automaton with automaton := auto' })
      | some (_, name, normStart) =>
          let originalStart : Int := (pyGetD indexMap normStart 0 : Nat)
          ({ matched := true
             pattern_name := some name
             tool_call_message := some p.toolCallMessage
             output := some (pySliceTo combined originalStart)
             text_with_tool_call := some (pySliceFrom combined originalStart) },
           [], { p.automaton with automaton := auto'.resetState })

/-- `process_chunk` of the base class, for the normalized processor. -/
def BufferedProcessorNorm.processChunk (p : BufferedProcessorNorm) (chunk : Str) :
    PatternMatchResult × BufferedProcessorNorm :=
  let combined := p.trailing ++ chunk
  let (result, newTrailing, auto') := processChunkImplNorm p combined
  (result, { p with trailing := newTrailing, automaton := auto' })

/-- `flush_buffer` of the base class, for the normalized processor. -/
def BufferedProcessorNorm.flushBuffer (p : BufferedProcessorNorm) :
    PatternMatchResult × BufferedProcessorNorm :=
  if p.trailing ≠ [] then
    ({ output := some p.trailing }, { p with trailing := [] })
  else
    ({}, p)

/-- `reset_states` of the base class, for the normalized processor. -/
def BufferedProcessorNorm.resetStates (p : BufferedProcessorNorm) : BufferedProcessorNorm :=
  { p with trailing := [] }

/-! ## JSON values and parsing

`json.loads` (vendor strategy) and `json5.loads` (JSON tool-call parser)
are external libraries; they are modelled by one recursive-descent parser
with a leniency flag (`json5 := true` additionally accepts bare object
keys, single-quoted strings and trailing commas).  Only integer number
literals are modelled; inputs outside this fragment fail to parse.
Python dicts preserve insertion order, so objects are association
lists. -/

/-- JSON values.  Numbers are restricted to integers. -/
inductive JsonValue where
  | null : JsonValue
  | bool (b : Bool) : JsonValue
  | num (n : Int) : JsonValue
  | str (s : Str) : JsonValue
  | arr (items : List JsonValue) : JsonValue
  | obj (fields : List (String × JsonValue)) : JsonValue
  deriving Repr, BEq

/-- JSON whitespace (also Python regex `\s` on the ASCII range). -/
def isJsonWs (c : Char) : Bool :=
  c = ' ' ∨ c = '\t' ∨ c = '\n' ∨ c = '\r'

/-- Skip leading whitespace. -/
def skipWs (s : Str) : Str := s.dropWhile isJsonWs

/-- Hex digit value. -/
def hexVal (c : Char) : Option Nat :=
  if '0' ≤ c ∧ c ≤ '9' then some (c.toNat - '0'.toNat)
  else if 'a' ≤ c ∧ c ≤ 'f' then some (c.toNat - 'a'.toNat + 10)
  else if 'A' ≤ c ∧ c ≤ 'F' then some (c.toNat - 'A'.toNat + 10)
  else none

/-- Parse a string literal body up to the closing quote `q`, decoding the
standard escapes. -/
def parseStrBody (q : Char) : Nat → Str → Option (Str × Str)
  | 0, _ => none
  | _, [] => none
  | fuel + 1, c :: cs =>
      if c = q then some ([], cs)
      else if c = '\\' then
        match cs with
        | [] => none
        | 'u' :: h1 :: h2 :: h3 :: h4 :: cs' =>
            match hexVal h1, hexVal h2, hexVal h3, hexVal h4 with
            | some a, some b, some d, some e =>
                (parseStrBody q fuel cs').map
                  (fun p => (Char.ofNat (((a * 16 + b) * 16 + d) * 16 + e) :: p.1, p.2))
            | _, _, _, _ => none
        | e :: cs' =>
            let dec : Option Char :=
              if e = '"' then some '"' else if e = '\'' then some '\''
              else if e = '\\' then some '\\' else if e = '/' then some '/'
              else if e = 'n' then some '\n' else if e = 't' then some '\t'
              else if e = 'r' then some '\r' else if e = 'b' then some '\x08'
              else if e = 'f' then some '\x0c' else none
            match dec with
            | some d => (parseStrBody q fuel cs').map (fun p => (d :: p.1, p.2))
            | none => none
      else (parseStrBody q fuel cs).map (fun p => (c :: p.1, p.2))

/-- Decimal digit string to `Nat`. -/
def digitsToNat (ds : Str) : Nat :=
  ds.foldl (fun a c => a * 10 + (c.toNat - '0'.toNat)) 0

/-- Parse an integer number literal (optional leading minus; leading
zeros, fractions and exponents are outside the modelled fragment). -/
def parseIntLit : Str → Option (Int × Str)
  | '-' :: cs => (parseUInt cs).map (fun p => (-(p.1 : Int), p.2))
  | cs => (parseUInt cs).map (fun p => ((p.1 : Int), p.2))
where
  parseUInt (cs : Str) : Option (Nat × Str) :=
    let ds := cs.takeWhile Char.isDigit
    let rest := cs.dropWhile Char.isDigit
    if ds = [] then none
    else if ds.length > 1 ∧ ds.head? = some '0' then none
    else if rest.head?.elim false (fun c => c = '.' ∨ c = 'e' ∨ c = 'E') then none
    else some (digitsToNat ds, rest)

/-- Whether a character may start a bare (JSON5) identifier key. -/
def isIdentStart (c : Char) : Bool := c.isAlpha ∨ c = '_' ∨ c = '$'

/-- Whether a character may continue a bare (JSON5) identifier key. -/
def isIdentCont (c : Char) : Bool := c.isAlphanum ∨ c = '_' ∨ c = '$'

mutual

/-- Parse a single JSON value (after no whitespace skipping; callers skip). -/
def parseValue (j5 : Bool) : Nat → Str → Option (JsonValue × Str)
  | 0, _ => none
  | fuel + 1, s =>
      match skipWs s with
      | [] => none
      | c :: cs =>
          if c = '{' then parseObjFirst j5 fuel cs
          else if c = '[' then parseArrFirst j5 fuel cs
          else if c = '"' then
            (parseStrBody '"' (cs.length + 1) cs).map (fun p => (.str p.1, p.2))
          else if j5 ∧ c = '\'' then
            (parseStrBody '\'' (cs.length + 1) cs).map (fun p => (.str p.1, p.2))
          else if c = 't' ∧ cs.take 3 = ['r', 'u', 'e'] then some (.bool true, cs.drop 3)
          else if c = 'f' ∧ cs.take 4 = ['a', 'l', 's', 'e'] then some (.bool false, cs.drop 4)
          else if c = 'n' ∧ cs.take 3 = ['u', 'l', 'l'] then some (.null, cs.drop 3)
          else if c = '-' ∨ c.isDigit then
            (parseIntLit (c :: cs)).map (fun p => (.num p.1, p.2))
          else none

/-- Array contents immediately after `[`. -/
def parseArrFirst (j5 : Bool) : Nat → Str → Option (JsonValue × Str)
  | 0, _ => none
  | fuel + 1, s =>
      match skipWs s with
      | ']' :: rest => some (.arr [], rest)
      | s' =>
          match parseValue j5 fuel s' with
          | none => none
          | some (v, rest) => parseArrTail j5 fuel [v] rest

/-- Array contents after at least one item: a `,` or `]` is expected
(anything else — e.g. the `;` separators the repair pass fixes — is a
parse error). -/
def parseArrTail (j5 : Bool) : Nat → List JsonValue → Str → Option (JsonValue × Str)
  | 0, _, _ => none
  | fuel + 1, acc, s =>
      match skipWs s with
      | ']' :: rest => some (.arr acc.reverse, rest)
      | ',' :: rest =>
          match skipWs rest with
          | ']' :: rest' => if j5 then some (.arr acc.reverse, rest') else none
          | s' =>
              match parseValue j5 fuel s' with
              | none => none
              | some (v, rest') => parseArrTail j5 fuel (v :: acc) rest'
      | _ => none

/-- Object contents immediately after `{`. -/
def parseObjFirst (j5 : Bool) : Nat → Str → Option (JsonValue × Str)
  | 0, _ => none
  | fuel + 1, s =>
      match skipWs s with
      | '}' :: rest => some (.obj [], rest)
      | s' =>
          match parseMember j5 fuel s' with
          | none => none
          | some (k, v, rest) => parseObjTail j5 fuel [(k, v)] rest

/-- Object contents after at least one member. -/
def parseObjTail (j5 : Bool) : Nat → List (String × JsonValue) → Str →
    Option (JsonValue × Str)
  | 0, _, _ => none
  | fuel + 1, acc, s =>
      match skipWs s with
      | '}' :: rest => some (.obj acc.reverse, rest)
      | ',' :: rest =>
          match skipWs rest with
          | '}' :: rest' => if j5 then some (.obj acc.reverse, rest') else none
          | s' =>
              match parseMember j5 fuel s' with
              | none => none
              | some (k, v, rest') => parseObjTail j5 fuel ((k, v) :: acc) rest'
      | _ => none

/-- One `key : value` object member. -/
def parseMember (j5 : Bool) : Nat → Str → Option (String × JsonValue × Str)
  | 0, _ => none
  | fuel + 1, s =>
      let key? : Option (Str × Str) :=
        match skipWs s with
        | '"' :: cs => parseStrBody '"' (cs.length + 1) cs
        | '\'' :: cs => if j5 then parseStrBody '\'' (cs.length + 1) cs else none
        | c :: cs =>
            if j5 ∧ isIdentStart c then
              some (c :: cs.takeWhile isIdentCont, cs.dropWhile isIdentCont)
            else none
        | [] => none
      match key? with
      | none => none
      | some (k, rest) =>
          match skipWs rest with
          | ':' :: rest' =>
              (parseValue j5 fuel rest').map (fun p => (String.mk k, p.1, p.2))
          | _ => none

end

/-- `json.loads` / `json5.loads` on a whole document: a single value with
nothing but whitespace after it. -/
def jsonLoadsWith (j5 : Bool) (s : Str) : Option JsonValue :=
  match parseValue j5 (2 * s.length + 8) s with
  | some (v, rest) => if skipWs rest = [] then some v else none
  | none => none

/-- Model of `json.loads` (strict JSON). -/
def jsonLoads (s : Str) : Option JsonValue := jsonLoadsWith false s

/-- Model of `json5.loads`. -/
def json5Loads (s : Str) : Option JsonValue := jsonLoadsWith true s

/-! ## JSON tool-call parser (`json_tool_call_parser.py`)

The four precompiled regexes of `preprocess_json` are modelled as direct
left-to-right scan-and-replace functions, mirroring `re.sub` (leftmost
match, resume after the replaced span).  They run on the raw text,
including inside string literals, exactly as the source does. -/

/-- After a `}` or `]`: match `\s*;\s*(\{|\[)` and return the open
bracket and the remainder after it. -/
def afterCloseSemi (s : Str) : Option (Char × Str) :=
  match s.dropWhile isJsonWs with
  | ';' :: rest =>
      match rest.dropWhile isJsonWs with
      | c :: rest' => if c = '{' ∨ c = '[' then some (c, rest') else none
      | [] => none
  | _ => none

/-- `SEMICOLON_PATTERN.sub(r'\1,\2', s)`: replace `(\}|\])\s*;\s*(\{|\[)`
by close-comma-open. -/
def semicolonFix : Nat → Str → Str
  | 0, s => s
  | _, [] => []
  | fuel + 1, c :: rest =>
      if c = '}' ∨ c = ']' then
        match afterCloseSemi rest with
        | some (o, rest') => c :: ',' :: o :: semicolonFix fuel rest'
        | none => c :: semicolonFix fuel rest
      else c :: semicolonFix fuel rest

/-- After a `,`: match `\s*(\}|\])` and return the close bracket and what
follows it. -/
def afterCommaClose (s : Str) : Option (Char × Str) :=
  match s.dropWhile isJsonWs with
  | c :: rest => if c = '}' ∨ c = ']' then some (c, rest) else none
  | [] => none

/-- `TRAILING_COMMA_PATTERN.sub(r'\1', s)`: replace `,\s*(\}|\])` by the
close bracket. -/
def trailingCommaFix : Nat → Str → Str
  | 0, s => s
  | _, [] => []
  | fuel + 1, c :: rest =>
      if c = ',' then
        match afterCommaClose rest with
        | some (cl, rest') => cl :: trailingCommaFix fuel rest'
        | none => c :: trailingCommaFix fuel rest
      else c :: trailingCommaFix fuel rest

/-- After a `}` or `]`: match `\s*(\{|\[)`. -/
def afterCloseOpen (s : Str) : Option (Char × Str) :=
  match s.dropWhile isJsonWs with
  | c :: rest => if c = '{' ∨ c = '[' then some (c, rest) else none
  | [] => none

/-- `MISSING_COMMA_PATTERN.sub(r'\1,\2', s)`: replace `(\}|\])\s*(\{|\[)`
by close-comma-open. -/
def missingCommaFix : Nat → Str → Str
  | 0, s => s
  | _, [] => []
  | fuel + 1, c :: rest =>
      if c = '}' ∨ c = ']' then
        match afterCloseOpen rest with
        | some (o, rest') => c :: ',' :: o :: missingCommaFix fuel rest'
        | none => c :: missingCommaFix fuel rest
      else c :: missingCommaFix fuel rest

/-- After a `{` or `,`: match `\s*([a-zA-Z_][a-zA-Z0-9_]*)\s*:` and
return the identifier and what follows the colon. -/
def afterDelimBareKey (s : Str) : Option (Str × Str) :=
  match s.dropWhile isJsonWs with
  | c :: rest =>
      if c.isAlpha ∨ c = '_' then
        let ident := c :: rest.takeWhile (fun d => d.isAlphanum ∨ d = '_')
        let after := rest.dropWhile (fun d => d.isAlphanum ∨ d = '_')
        match after.dropWhile isJsonWs with
        | ':' :: rest' => some (ident, rest')
        | _ => none
      else none
  | [] => none

/-- `UNQUOTED_PROPERTY_PATTERN.sub(r'\1"\2":', s)`: replace
`([{,])\s*([a-zA-Z_][a-zA-Z0-9_]*)\s*:` by the delimiter, the quoted
identifier and the colon. -/
def unquotedKeyFix : Nat → Str → Str
  | 0, s => s
  | _, [] => []
  | fuel + 1, c :: rest =>
      if c = '{' ∨ c = ',' then
        match afterDelimBareKey rest with
        | some (ident, rest') =>
            c :: '"' :: (ident ++ '"' :: ':' :: unquotedKeyFix fuel rest')
        | none => c :: unquotedKeyFix fuel rest
      else c :: unquotedKeyFix fuel rest

/-- `JSONToolCallParser.preprocess_json`: the four regex passes in source
order. -/
def preprocessJson (s : Str) : Str :=
  let s1 := semicolonFix s.length s
  let s2 := trailingCommaFix s1.length s1
  let s3 := missingCommaFix s2.length s2
  unquotedKeyFix s3.length s3

/-- Loop state of `find_json_content`. -/
structure FJState where
  results : List Str := []
  start : Option Nat := none
  depth : Int := 0
  inString : Bool := false
  escapeNext : Bool := false

/-- One character of `find_json_content`'s scan (the Python loop body;
`continue` after a fresh backslash skips the rest of the body). -/
def fjStep (text : Str) (st : FJState) (ic : Nat × Char) : FJState :=
  let (i, c) := ic
  if c = '\\' ∧ ¬ st.escapeNext then { st with escapeNext := true }
  else
    let inString := if c = '"' ∧ ¬ st.escapeNext then ¬ st.inString else st.inString
    let st := { st with inString := inString, escapeNext := false }
    if st.inString then st
    else if (c = '{' ∨ c = '[') ∧ st.depth = 0 then
      { st with start := some i, depth := st.depth + 1 }
    else if c = '{' ∨ c = '[' then { st with depth := st.depth + 1 }
    else if c = '}' ∨ c = ']' then
      let depth := st.depth - 1
      match st.start with
      | some s0 =>
          if depth = 0 then
            { st with
                depth := depth
                start := none
                results := st.results ++ [(text.take (i + 1)).drop s0] }
          else { st with depth := depth }
      | none => { st with depth := depth }
    else st

/-- `JSONToolCallParser.find_json_content`. -/
def findJsonContent (text : Str) : List Str :=
  (text.enum.foldl (fjStep text) {}).results

/-- Python `str.strip()`. -/
def pyStrip (s : Str) : Str :=
  ((s.dropWhile pyIsSpace).reverse.dropWhile pyIsSpace).reverse

/-- Loop state of `split_json_list_items`. -/
structure SJState where
  items : List Str := []
  depth : Int := 0
  start : Nat := 0
  inString : Bool := false
  escapeNext : Bool := false

/-- One character of `split_json_list_items`'s scan. -/
def sjStep (content : Str) (st : SJState) (ic : Nat × Char) : SJState :=
  let (i, c) := ic
  if c = '\\' ∧ ¬ st.escapeNext then { st with escapeNext := true }
  else
    let inString := if c = '"' ∧ ¬ st.escapeNext then ¬ st.inString else st.inString
    let st := { st with inString := inString, escapeNext := false }
    if st.inString then st
    else
      let st :=
        if c = '{' ∨ c = '[' then { st with depth := st.depth + 1 }
        else if c = '}' ∨ c = ']' then { st with depth := st.depth - 1 }
        else st
      if st.depth = 0 ∧ (c = ',' ∨ c = ';') ∧ st.start ≤ i then
        { st with
            items := st.items ++ [pyStrip ((content.take i).drop st.start)]
            start := i + 1 }
      else st

/-- `JSONToolCallParser.split_json_list_items`. -/
def splitJsonListItems (jsonList : Str) : List Str :=
  let content := pyStrip (pySliceTo (pySliceFrom jsonList 1) (-1))
  let st := content.enum.foldl (sjStep content) {}
  if st.start < content.length then st.items ++ [pyStrip (content.drop st.start)]
  else st.items

/-- `JSONToolCallParser.parse_nested_json`: recursively re-parse
stringified JSON found inside a parsed structure.  The Python recursion
always terminates; `fuel` bounds it here. -/
def parseNestedJson : Nat → JsonValue → JsonValue
  | 0, v => v
  | fuel + 1, v =>
      match v with
      | .str s =>
          let trimmed := pyStrip s
          if trimmed ≠ [] ∧ (trimmed.head? = some '{' ∨ trimmed.head? = some '[') then
            match json5Loads (preprocessJson trimmed) with
            | some parsed => parseNestedJson fuel parsed
            | none => .str s
          else .str s
      | .obj fields => .obj (fields.map (fun kv => (kv.1, parseNestedJson fuel kv.2)))
      | .arr items => .arr (items.map (parseNestedJson fuel))
      | other => other

/-- Result of `JSONToolCallParser.extract`: either
`{"tool_calls": [...]}` or `{"error": "..."}`. -/
inductive ExtractResult where
  | toolCalls (calls : List JsonValue) : ExtractResult
  | error (msg : String) : ExtractResult
  deriving Repr, BEq

/-- Append a parsed value to `valid_calls` the way `extract` does: a dict
is appended, a list is spliced in, anything else is dropped. -/
def appendParsed (validCalls : List JsonValue) (parsed : JsonValue) : List JsonValue :=
  match parsed with
  | .obj f => validCalls ++ [.obj f]
  | .arr items => validCalls ++ items
  | _ => validCalls

/-- The per-segment body of `extract`'s loop: first a plain `json5`
parse, then a parse of the preprocessed text, then (for `[...]`
segments) a per-item salvage pass via `split_json_list_items`. -/
def extractSegment (validCalls : List JsonValue) (jsonStr : Str) : List JsonValue :=
  match json5Loads jsonStr with
  | some parsed => appendParsed validCalls (parseNestedJson (jsonStr.length + 1) parsed)
  | none =>
      match json5Loads (preprocessJson jsonStr) with
      | some parsed => appendParsed validCalls (parseNestedJson (jsonStr.length + 1) parsed)
      | none =>
          if jsonStr.head? = some '[' ∧ jsonStr.getLast? = some ']' then
            (splitJsonListItems jsonStr).foldl
              (fun acc item =>
                match json5Loads item with
                | some p => acc ++ [parseNestedJson (item.length + 1) p]
                | none => acc)
              validCalls
          else validCalls

/-- `JSONToolCallParser.extract`. -/
def jsonExtract (text : Str) : ExtractResult :=
  let validCalls := (findJsonContent text).foldl extractSegment []
  if validCalls.isEmpty then .error "No valid tool calls found" else .toolCalls validCalls

/-! ## SSE and tool-call data models
(`api/sse_models.py`, `data_models/chat_completions.py`,
`llm/tool_detection/detection_result.py`) -/

/-- `SSEFunction`: streamed function-call fragment. -/
structure SSEFunction where
  name : String := ""
  arguments : Str := []
  deriving Repr, BEq

/-- `SSEToolCall`. -/
structure SSEToolCall where
  index : Nat := 0
  id : Option String := none
  type : String := "function"
  function : Option SSEFunction := none
  deriving Repr, BEq

/-- `SSEDelta` (the fields the detection strategies read). -/
structure SSEDelta where
  role : Option String := none
  content : Option Str := none
  toolCalls : Option (List SSEToolCall) := none
  deriving Repr, BEq

/-- `SSEChoice`.  `delta` is a required pydantic field, so it is always
present (the `not ….delta` test in the manual strategy can never fire on
a pydantic model instance, which is always truthy). -/
structure SSEChoice where
  index : Nat := 0
  delta : SSEDelta := {}
  finishReason : Option String := none
  deriving Repr, BEq

/-- `SSEChunk` (the field the detection strategies read). -/
structure SSEChunk where
  choices : List SSEChoice
  deriving Repr, BEq

/-- `FunctionDetail`: pydantic declares `arguments: Dict`, so
constructing one with a non-dict value raises a validation error; the
smart constructor below models that. -/
structure FunctionDetail where
  name : String
  arguments : List (String × JsonValue)
  deriving Repr, BEq

/-- `ToolCall` (`type` is fixed to `"function"`). -/
structure ToolCall where
  id : String
  type : String := "function"
  function : FunctionDetail
  deriving Repr, BEq

/-- Pydantic validation of `FunctionDetail(name=…, arguments=v)`: only a
JSON object is accepted for the `Dict`-typed `arguments` field. -/
def mkFunctionDetail (name : String) (v : JsonValue) : Except String FunctionDetail :=
  match v with
  | .obj fields => .ok { name := name, arguments := fields }
  | _ => .error "validation error: arguments is not a dict"

/-- `DetectionState`. -/
inductive DetectionState where
  | noMatch : DetectionState
  | partialMatch : DetectionState
  | completeMatch : DetectionState
  deriving Repr, BEq, DecidableEq

/-- `DetectionResult`. -/
structure DetectionResult where
  state : DetectionState
  toolCalls : Option (List ToolCall) := none
  content : Option Str := none
  sseChunk : Option SSEChunk := none
  deriving Repr, BEq

/-! ## Vendor detection strategy (`vendor_detection_strategy.py`) -/

/-- The mutable state of `VendorToolCallDetectionStrategy` (after
`reset()`; `partial_name` starts as `None`, `partial_args` as `""`). -/
structure VendorState where
  partialName : Option String := none
  partialArgs : Str := []
  collectedToolCalls : List ToolCall := []
  foundCompleteCall : Bool := false
  deriving Repr, BEq

/-- `VendorToolCallDetectionStrategy.reset`. -/
def vendorReset : VendorState := {}

/-- Python truthiness of `partial_name` (`None` and `""` are falsy). -/
def nameTruthy (n : Option String) : Bool :=
  match n with
  | none => false
  | some s => s ≠ ""

/-- The tool-call fragment of a chunk, as the vendor strategy reads it:
`delta.tool_calls if delta.tool_calls else None`, then `tool_calls[0]`. -/
def chunkToolCallData (choice : SSEChoice) : Option SSEToolCall :=
  match choice.delta.toolCalls with
  | some l => if l.isEmpty then none else l.head?
  | none => none

/-- The accumulation step of `vendor detect_chunk`: store a (truthy)
streamed function name, append streamed argument text. -/
def vendorAbsorb (st : VendorState) (toolCallData : Option SSEToolCall) : VendorState :=
  match toolCallData with
  | none => st
  | some tcd =>
      let functionName : Option String := tcd.function.map SSEFunction.name
      let arguments : Option Str := tcd.function.map SSEFunction.arguments
      let st :=
        if nameTruthy functionName then { st with partialName := functionName }
        else st
      match arguments with
      | some args => if args ≠ [] then { st with partialArgs := st.partialArgs ++ args } else st
      | none => st

/-- `json.loads(self.partial_args) if self.partial_args else {}`, with
the `JSONDecodeError` fallback `{"_malformed": partial_args}`. -/
def vendorParsedArgs (args : Str) : JsonValue :=
  if args = [] then .obj []
  else
    match jsonLoads args with
    | some v => v
    | none => .obj [("_malformed", .str args)]

/-- The `(tool_call_data and tool_call_data.id) or "call_generated"`
expression. -/
def vendorCallId (toolCallData : Option SSEToolCall) : String :=
  match toolCallData with
  | some tcd => match tcd.id with
                | some i => if i = "" then "call_generated" else i
                | none => "call_generated"
  | none => "call_generated"

/-- `VendorToolCallDetectionStrategy.detect_chunk`.  The `Except` layer
carries the pydantic validation error raised when `json.loads` succeeds
on `partial_args` but yields a non-dict (rejected by `FunctionDetail`'s
`arguments: Dict`). -/
def vendorDetectChunk (st : VendorState) (chunk : SSEChunk) :
    Except String (DetectionResult × VendorState) :=
  match chunk.choices with
  | [] => .ok ({ state := .noMatch }, st)
  | choice :: _ =>
      let delta := choice.delta
      let finishReason := choice.finishReason
      let textContent : Option Str :=
        match delta.content with
        | some c => if c = [] then none else some c
        | none => none
      let toolCallData : Option SSEToolCall := chunkToolCallData choice
      let st := vendorAbsorb st toolCallData
      if finishReason = some "tool_calls" ∧ nameTruthy st.partialName then
        match mkFunctionDetail (st.partialName.getD "") (vendorParsedArgs st.partialArgs) with
            | .error e => .error e
            | .ok fd =>
                let tc : ToolCall := { id := vendorCallId toolCallData, function := fd }
                let st' := { st with
                              collectedToolCalls := st.collectedToolCalls ++ [tc]
                              foundCompleteCall := true }
                .ok ({ state := .completeMatch
                       toolCalls := some [tc]
                       content := textContent }, st')
      else if nameTruthy st.partialName ∨ st.partialArgs ≠ [] then
        .ok ({ state := .partialMatch, content := textContent }, st)
      else
        .ok ({ state := .noMatch, content := textContent }, st)

/-! ## Manual detection strategy (`manual_detection_strategy.py`) -/

/-- The mutable state of `ManualToolCallDetectionStrategy`: the
normalized buffered processor (with its trailing buffer and automaton
state) plus the strategy's own buffers and flags. -/
structure ManualState where
  detector : BufferedProcessorNorm
  preToolCallContent : List Str := []
  toolCallBuffer : Str := []
  inToolCall : Bool := false
  accumulationMode : Bool := false
  deriving Repr, BEq

/-- `ManualToolCallDetectionStrategy.__init__` for an already-loaded
pattern dict (`none` when the processor constructor raises). -/
def mkManualState (patterns : List (String × Str)) : Option ManualState :=
  (mkBufferedProcessorNorm patterns).map (fun d => { detector := d })

/-- `ManualToolCallDetectionStrategy.reset`. -/
def manualReset (st : ManualState) : ManualState :=
  { detector := st.detector.resetStates
    preToolCallContent := []
    toolCallBuffer := []
    inToolCall := false
    accumulationMode := false }

/-- `ManualToolCallDetectionStrategy.detect_chunk`. -/
def manualDetectChunk (st : ManualState) (chunk : SSEChunk) :
    DetectionResult × ManualState :=
  match chunk.choices with
  | [] => ({ state := .noMatch, sseChunk := some chunk }, st)
  | choice :: _ =>
      match choice.delta.content with
      | none => ({ state := .noMatch, sseChunk := some chunk }, st)
      | some chunkContent =>
          if chunkContent = [] then
            ({ state := .noMatch, sseChunk := some chunk }, st)
          else
            let (result, det') := st.detector.processChunk chunkContent
            let st := { st with detector := det' }
            if result.error ≠ none then
              ({ state := .noMatch, sseChunk := some chunk }, st)
            else if result.matched then
              ({ state := .partialMatch, content := some [], sseChunk := some chunk },
               { st with
                  inToolCall := true
                  toolCallBuffer := result.text_with_tool_call.getD [] })
            else if st.inToolCall then
              ({ state := .partialMatch, sseChunk := some chunk },
               { st with toolCallBuffer := st.toolCallBuffer ++ chunkContent })
            else if (result.output.getD []) ≠ [] then
              ({ state := .partialMatch, content := result.output, sseChunk := some chunk }, st)
            else
              ({ state := .noMatch, sseChunk := some chunk }, st)

/-- A minimal content-only chunk, as built by `SSEChunk.make_text_chunk`
(only the fields the detection strategies read are modelled). -/
def mkTextChunk (text : String) : SSEChunk :=
  { choices := [{ index := 0, delta := { role := some "assistant", content := some text.data } }] }

instance : Inhabited BufferedProcessor :=
  ⟨{ automaton := mkAutomaton [], maxPatternLen := 0, toolCallMessage := "", trailing := [] }⟩

instance : Inhabited BufferedProcessorNorm :=
  ⟨{ automaton := mkAutomatonNormalized [], maxPatternLen := 0, toolCallMessage := "",
     trailing := [] }⟩

instance : Inhabited ManualState := ⟨{ detector := default }⟩

/-- Feed a sequence of chunks through `detect_chunk`, collecting results. -/
def manualDetectChunks (st : ManualState) :
    List SSEChunk → List DetectionResult × ManualState
  | [] => ([], st)
  | c :: cs =>
      let (r, st') := manualDetectChunk st c
      let (rs, st'') := manualDetectChunks st' cs
      (r :: rs, st'')

/-! ## Streaming chat agent (`chat_agent_streaming.py`)

`stream_step` drives a state machine over `StreamState`.  For the loop
claims, the stream/detection round performed inside `_handle_streaming`
is abstracted by an oracle giving each generation round's outcome:
either a complete tool-call match was detected mid-stream
(`_handle_complete_match` runs and the state moves to `TOOL_DETECTION`),
or the stream finished without one (a stop chunk is emitted and the
state moves to `COMPLETING`). -/

/-- `StreamState` (`data_models/agent.py`). -/
inductive StreamState where
  | streaming | toolDetection | executingTools | intermediate | completing | completed
  deriving Repr, DecidableEq

/-- The context fields `stream_step` manipulates for loop control. -/
structure StreamCtx where
  currentState : StreamState
  streamingEntryCount : Nat
  maxStreamingIterations : Nat
  deriving Repr, DecidableEq

/-- The observable SSE side of a state handler, as far as the loop
claims are concerned. -/
inductive AgentEvent where
  | streamOpened : AgentEvent
  | stopChunk (content : Option String) : AgentEvent
  | statusChunk (status : String) : AgentEvent
  deriving Repr, DecidableEq

/-- Outcome of one generation round (the body of `_handle_streaming`
after the re-entry guard). -/
inductive RoundOutcome where
  | toolCallDetected : RoundOutcome
  | finishedWithoutToolCall : RoundOutcome
  deriving Repr, DecidableEq

/-- The abort message of `_handle_streaming`'s re-entry guard. -/
def maxDepthMessage : String :=
  "Maximum streaming depth reached. Please try your request again."

/-- `StreamingChatAgent._handle_streaming`: bump the re-entry counter;
if it exceeds the configured maximum, emit a stop chunk and abort to
`COMPLETING` without opening a model stream; otherwise open the model
stream and run one generation round, whose outcome `oracle` supplies. -/
def handleStreaming (oracle : Nat → RoundOutcome) (ctx : StreamCtx) :
    StreamCtx × List AgentEvent :=
  let cnt := ctx.streamingEntryCount + 1
  if cnt > ctx.maxStreamingIterations then
    ({ ctx with streamingEntryCount := cnt, currentState := .completing },
     [.stopChunk (some maxDepthMessage)])
  else
    match oracle cnt with
    | .toolCallDetected =>
        ({ ctx with streamingEntryCount := cnt, currentState := .toolDetection },
         [.streamOpened])
    | .finishedWithoutToolCall =>
        ({ ctx with streamingEntryCount := cnt, currentState := .completing },
         [.streamOpened, .stopChunk none])

/-- One iteration of `stream_step`'s `while` loop: dispatch on
`context.current_state` to the state handlers (`_handle_tool_detection`,
`_handle_tool_execution` and `_handle_intermediate` each emit one status
chunk and advance the state; after `_handle_completing` the loop sets
`COMPLETED`). -/
def stepAgent (oracle : Nat → RoundOutcome) (ctx : StreamCtx) :
    StreamCtx × List AgentEvent :=
  match ctx.currentState with
  | .streaming => handleStreaming oracle ctx
  | .toolDetection =>
      ({ ctx with currentState := .executingTools }, [.statusChunk "tool_call_detected"])
  | .executingTools =>
      ({ ctx with currentState := .intermediate }, [.statusChunk "tools_executed"])
  | .intermediate =>
      ({ ctx with currentState := .streaming }, [.statusChunk "continuing_generation"])
  | .completing => ({ ctx with currentState := .completed }, [.stopChunk none])
  | .completed => (ctx, [])

/-- Run `stream_step`'s loop for at most `fuel` iterations (the loop
itself runs until `COMPLETED`). -/
def runAgent (oracle : Nat → RoundOutcome) : Nat → StreamCtx → StreamCtx × List AgentEvent
  | 0, ctx => (ctx, [])
  | fuel + 1, ctx =>
      if ctx.currentState = .completed then (ctx, [])
      else
        let (ctx', evs) := stepAgent oracle ctx
        let (ctx'', evs') := runAgent oracle fuel ctx'
        (ctx'', evs ++ evs')

/-- `_initialize_context`: the loop starts in `STREAMING` with
`streaming_entry_count = 0` and the configured maximum. -/
def initCtx (maxIterations : Nat) : StreamCtx :=
  { currentState := .streaming
    streamingEntryCount := 0
    maxStreamingIterations := maxIterations }

/-- The events of one full tool-call generation cycle:
`STREAMING → TOOL_DETECTION → EXECUTING_TOOLS → INTERMEDIATE → STREAMING`. -/
def cycleEvents : List AgentEvent :=
  [.streamOpened, .statusChunk "tool_call_detected", .statusChunk "tools_executed",
   .statusChunk "continuing_generation"]

/-- Count how often the model stream was opened in a trace. -/
def countStreamOpened (evs : List AgentEvent) : Nat :=
  evs.countP (fun e => e = AgentEvent.streamOpened)

/-! ## Tool execution (`_handle_tool_execution`, `_execute_tools_concurrently`)

`asyncio.gather` runs one `run_tool` per captured call and preserves
order; `run_tool` catches every exception and returns it as a value, so
each result slot is either a success payload or a captured exception.  A
tool's behaviour is abstracted as a function from its arguments to
either a result string or a raised exception's message. -/

/-- A tool registry: `tool_registry.get_tool` by name, plus the tool's
`execute` behaviour (`.error` models a raised exception). -/
abbrev ToolRegistry := String → Option (List (String × JsonValue) → Except Str Str)

/-- `run_tool` inside `_execute_tools_concurrently`: a missing tool
raises `RuntimeError`; any exception is caught and returned as a value. -/
def runTool (registry : ToolRegistry) (tc : ToolCall) : Except Str Str :=
  match registry tc.function.name with
  | none => .error ("Tool " ++ tc.function.name ++ " not found").data
  | some exec => exec tc.function.arguments

/-- `_execute_tools_concurrently`: one result slot per call, in order. -/
def executeToolsConcurrently (registry : ToolRegistry) (calls : List ToolCall) :
    List (Except Str Str) :=
  calls.map (runTool registry)

/-- Conversation-history records (`AssistantMessage` with content,
`AssistantMessage` carrying tool calls, `ToolMessage`). -/
inductive HistoryEntry where
  | assistantContent (content : Str) : HistoryEntry
  | assistantToolCalls (calls : List ToolCall) : HistoryEntry
  | toolResult (name : String) (content : Str) (toolCallId : String) : HistoryEntry
  deriving Repr, BEq

/-- The history records appended by `_handle_tool_execution`'s
`for call, result in zip(...)` loop. -/
def toolLoopAppend (calls : List ToolCall) (results : List (Except Str Str)) :
    List HistoryEntry :=
  (calls.zip results).flatMap
    (fun cr =>
      HistoryEntry.assistantToolCalls [cr.1] ::
        match cr.2 with
        | .error e =>
            [.assistantContent (("Error executing tool " ++ cr.1.function.name ++ ": ").data ++ e)]
        | .ok payload => [.toolResult cr.1.function.name payload cr.1.id])

/-- `StreamingChatAgent._handle_tool_execution`: flush a non-blank
message buffer to history, execute the captured calls concurrently,
append the per-call records, and move to `INTERMEDIATE`.  The function
is total: no exception escapes the state. -/
def handleToolExecution (registry : ToolRegistry) (messageBuffer : Str)
    (calls : List ToolCall) (history : List HistoryEntry) :
    List HistoryEntry × Str × StreamState :=
  let history' :=
    if pyStrip messageBuffer ≠ [] then history ++ [.assistantContent messageBuffer]
    else history
  let messageBuffer' := if pyStrip messageBuffer ≠ [] then ([] : Str) else messageBuffer
  let results := executeToolsConcurrently registry calls
  (history' ++ toolLoopAppend calls results, messageBuffer', .intermediate)

/-! # Theorems -/

set_option maxRecDepth 100000

/-- C1: the claim states that feeding chunks of a pattern-free input to a
fresh buffered processor yields `matched = False` throughout and the
outputs concatenate to the input.  The code violates this: the automaton
`current_state` survives across `process_chunk` calls while the trailing
buffer is re-fed, so with pattern `"aba"` and chunks `"ab"`, `"x"` (the
full input `"abx"` contains no `"aba"`) the second call reports
`matched = True`, and the concatenated outputs are `"a"`, not `"abx"`. -/
theorem c1_stale_automaton_reports_false_match :
    (mkBufferedProcessor [("p", "aba".data)]).map (fun p =>
      let (r1, p1) := p.processChunk "ab".data
      let (r2, p2) := p1.processChunk "x".data
      let (r3, _) := p2.flushBuffer
      (r1.matched, r1.output, r2.matched, r2.output, r2.text_with_tool_call, r3.output))
    = some (false, some [], true, some "a".data, some "bx".data, none) := rfl

/-- C3 (counterexample): the claim bounds the trailing buffer's length by
`maxPatternLength` for *both* variants.  For the normalized variant the
`keep_len` bound applies to the whitespace-stripped text, and the
original-text trailing buffer keeps the interleaved whitespace: pattern
`"ab"` (`maxPatternLen = 2`) with chunk `"a"` followed by ten spaces
leaves a trailing buffer of length 11. -/
theorem c3_counterexample_norm_trailing_exceeds_max :
    ((mkBufferedProcessorNorm [("p", "ab".data)]).map (fun p =>
      ((p.processChunk "a          ".data).2.trailing.length,
       (p.processChunk "a          ".data).2.maxPatternLen))
    = some (11, 2)) ∧ ¬ (11 < 2) := ⟨rfl, by decide⟩

/-- C7: `extract` on
`'[{"name":"a","arguments":{x:1}};{"name":"b","arguments":{y:2}}]'`
(bare keys, semicolon separator) returns exactly two tool calls named
`"a"` and `"b"` with arguments `x = 1` and `y = 2`, via the repair
pass. -/
theorem c7_extract_repairs_semicolon_and_bare_keys :
    jsonExtract "[\x7b\"name\":\"a\",\"arguments\":\x7bx:1\x7d\x7d;\x7b\"name\":\"b\",\"arguments\":\x7by:2\x7d\x7d]".data
    = .toolCalls
        [.obj [("name", .str "a".data), ("arguments", .obj [("x", .num 1)])],
         .obj [("name", .str "b".data), ("arguments", .obj [("y", .num 2)])]] := rfl

/-- C8 (counterexample): the claim says the emitted `ToolCall`'s
arguments are the JSON parse of `partial_args` whenever it parses.  But
`FunctionDetail.arguments` is pydantic-typed `Dict`, so a successful
parse that yields a non-dict — here `partial_args = "[1]"` — raises a
validation error out of `detect_chunk` instead of emitting
`CompleteMatch`. -/
theorem c8_counterexample_nondict_args_raise :
    vendorDetectChunk { partialName := some "f", partialArgs := "[1]".data }
      { choices := [{ delta := {}, finishReason := some "tool_calls" }] }
    = .error "validation error: arguments is not a dict" := rfl

/-- C9 (counterexample): the claim says a zero-length pattern is rejected
at construction.  In fact `AhoCorasickBufferedProcessor` accepts the
pattern set `{"p": ""}` and the resulting matcher happily "matches" on
any input: on `"ab"` it reports `matched = True` with the match start
past position 0. -/
theorem c9_counterexample_empty_pattern_accepted :
    (mkBufferedProcessor [("p", ([] : Str))]).map (fun p =>
      let (r, _) := p.processChunk "ab".data
      (r.matched, r.output, r.text_with_tool_call))
    = some (true, some "a".data, some "b".data) := rfl

/-- `getD` through `map (· + a)` at an in-range index. -/
theorem getD_map_add (l : List Nat) (i a : Nat) (h : i < l.length) :
    (l.map (· + a)).getD i 0 = l.getD i 0 + a := by
  induction l generalizing i with
  | nil => simp at h
  | cons x xs ih =>
      cases i with
      | zero => simp [List.getD]
      | succ j =>
          have hj : j < xs.length := by simpa using h
          simpa [List.getD] using ih j hj

/-- `normalize_and_map`'s scanner at base offset `idx` is the offset-0
scan with all recorded indices shifted by `idx`. -/
theorem normalizeAndMap_go_shift (s : Str) (idx : Nat) :
    normalizeAndMap.go idx s =
      ((normalizeAndMap.go 0 s).1, (normalizeAndMap.go 0 s).2.map (· + idx)) := by
  induction s generalizing idx with
  | nil => simp [normalizeAndMap.go]
  | cons c cs ih =>
      have hmap : ∀ (l : List Nat) (a : Nat),
          (l.map (· + 1)).map (· + a) = l.map (· + (a + 1)) := by
        intro l a
        rw [List.map_map]
        apply List.map_congr_left
        intro x _
        simp
        omega
      simp only [normalizeAndMap.go]
      rw [ih (idx + 1), ih 1]
      by_cases hc : pyIsSpace c
      · simp [hc, hmap]
      · simp [hc, hmap]

/-- Unfolding `normalize_and_map`'s scan over a whitespace character. -/
theorem normalizeAndMap_go_cons_space (c : Char) (cs : Str) (hc : pyIsSpace c) :
    normalizeAndMap.go 0 (c :: cs) =
      ((normalizeAndMap.go 0 cs).1, (normalizeAndMap.go 0 cs).2.map (· + 1)) := by
  simp only [normalizeAndMap.go]
  rw [normalizeAndMap_go_shift cs 1]
  simp [hc]

/-- Unfolding `normalize_and_map`'s scan over a kept character. -/
theorem normalizeAndMap_go_cons_keep (c : Char) (cs : Str) (hc : ¬ pyIsSpace c) :
    normalizeAndMap.go 0 (c :: cs) =
      (c :: (normalizeAndMap.go 0 cs).1,
       0 :: (normalizeAndMap.go 0 cs).2.map (· + 1)) := by
  simp only [normalizeAndMap.go]
  rw [normalizeAndMap_go_shift cs 1]
  simp [hc]

/-- The normalized text and the index map have the same length. -/
theorem normalizeAndMap_length_eq (s : Str) :
    (normalizeAndMap s).1.length = (normalizeAndMap s).2.length := by
  show (normalizeAndMap.go 0 s).1.length = (normalizeAndMap.go 0 s).2.length
  induction s with
  | nil => simp [normalizeAndMap.go]
  | cons c cs ih =>
      by_cases hc : pyIsSpace c
      · rw [normalizeAndMap_go_cons_space c cs hc]
        simpa using ih
      · rw [normalizeAndMap_go_cons_keep c cs hc]
        simpa using ih

/-- Dropping the original text at the original position of the `i`-th
kept character drops exactly the first `i` characters of the normalized
text (stated on the offset-0 scanner). -/
theorem normalizeAndMap_go_drop (s : Str) (i : Nat)
    (h : i < (normalizeAndMap.go 0 s).2.length) :
    (normalizeAndMap.go 0 (s.drop ((normalizeAndMap.go 0 s).2.getD i 0))).1 =
      (normalizeAndMap.go 0 s).1.drop i := by
  induction s generalizing i with
  | nil => simp [normalizeAndMap.go] at h
  | cons c cs ih =>
      by_cases hc : pyIsSpace c
      · rw [normalizeAndMap_go_cons_space c cs hc] at h ⊢
        have hlen : i < (normalizeAndMap.go 0 cs).2.length := by simpa using h
        rw [getD_map_add _ _ _ hlen]
        simpa using ih i hlen
      · rw [normalizeAndMap_go_cons_keep c cs hc] at h ⊢
        cases i with
        | zero => simp [List.getD, normalizeAndMap_go_cons_keep c cs hc]
        | succ j =>
            have hlen : j < (normalizeAndMap.go 0 cs).2.length := by simpa using h
            have hgd : (0 :: (normalizeAndMap.go 0 cs).2.map (· + 1)).getD (j + 1) 0 =
                (normalizeAndMap.go 0 cs).2.getD j 0 + 1 := by
              simpa [List.getD] using
                getD_map_add (normalizeAndMap.go 0 cs).2 j 1 hlen
            rw [hgd]
            simpa using ih j hlen

/-- `normalizeAndMap_go_drop`, restated through `normalizeAndMap`. -/
theorem normalizeAndMap_drop (s : Str) (i : Nat)
    (h : i < (normalizeAndMap s).2.length) :
    (normalizeAndMap (s.drop ((normalizeAndMap s).2.getD i 0))).1 =
      (normalizeAndMap s).1.drop i :=
  normalizeAndMap_go_drop s i h

/-- The standard processor's trailing buffer after `process_chunk`: its
length stays below `max_pattern_len`, and on a no-match call it is
exactly the last `min(max_pattern_len - 1, len(combined))` characters of
the combined text, the rest being emitted as output. -/
theorem processChunkStd_trailing (p : BufferedProcessor) (chunk : Str)
    (hp : 1 ≤ p.maxPatternLen) :
    ((p.processChunk chunk).2.trailing.length < p.maxPatternLen) ∧
    ((p.processChunk chunk).1.matched = false →
      (p.processChunk chunk).2.trailing =
        (p.trailing ++ chunk).drop
          ((p.trailing ++ chunk).length -
            min (p.maxPatternLen - 1) (p.trailing ++ chunk).length) ∧
      (p.processChunk chunk).1.output =
        some ((p.trailing ++ chunk).take
          ((p.trailing ++ chunk).length -
            min (p.maxPatternLen - 1) (p.trailing ++ chunk).length))) := by
  unfold BufferedProcessor.processChunk processChunkImplStd
  set combined := p.trailing ++ chunk with hcomb
  set M := p.maxPatternLen with hM
  set L := combined.length with hL
  set kN := min (M - 1) L with hkN
  rcases hsc : p.automaton.searchChunk combined with ⟨found, auto⟩
  have hcast : ((M : Int) - 1) ⊓ (L : Int) = (kN : Int) := by
    rw [hkN]
    omega
  simp only [hsc, ← hL, hcast]
  cases found with
  | cons m ms =>
      simp only
      refine ⟨by simpa using hp, ?_⟩
      intro hmf
      simp at hmf
  | nil =>
      by_cases hpos : (0 : Int) < (kN : Int)
      · have hkpos : 0 < kN := by omega
        have hkle : kN ≤ L := by rw [hkN]; omega
        have hbound : pyBound L (-(kN : Int)) = L - kN := by
          unfold pyBound
          rw [if_pos (by omega)]
          omega
        rw [if_pos hpos]
        simp only [pySliceFrom, pySliceTo, ← hL, hbound]
        refine ⟨?_, fun _ => ⟨trivial, trivial⟩⟩
        rw [List.length_drop, ← hL]
        omega
      · have hk0 : kN = 0 := by omega
        rw [if_neg hpos]
        simp only
        refine ⟨by simpa using hp, ?_⟩
        intro _
        rw [hk0]
        constructor
        · rw [Nat.sub_zero, hL, List.drop_length]
        · rw [Nat.sub_zero, hL, List.take_length]

/-- The normalized processor's trailing buffer after `process_chunk`:
its *whitespace-stripped* length stays below `max_pattern_len`. -/
theorem processChunkNorm_trailing_bound (q : BufferedProcessorNorm) (chunk : Str)
    (hq : 1 ≤ q.maxPatternLen) :
    (normalizeAndMap (q.processChunk chunk).2.trailing).1.length < q.maxPatternLen := by
  unfold BufferedProcessorNorm.processChunk processChunkImplNorm
  set combined := q.trailing ++ chunk with hcomb
  set M := q.maxPatternLen with hM
  rcases hnm : normalizeAndMap combined with ⟨norm, imap⟩
  set N := norm.length with hN
  set kN := min (M - 1) N with hkN
  rcases hsc : q.automaton.automaton.searchChunk norm with ⟨found, auto⟩
  have hempty : (normalizeAndMap ([] : Str)).1.length = 0 := by
    simp [normalizeAndMap, normalizeAndMap.go]
  have hcast : ((M : Int) - 1) ⊓ (N : Int) = (kN : Int) := by
    rw [hkN]
    omega
  simp only [hnm, hsc, ← hN, hcast]
  cases found with
  | cons m ms =>
      cases hem : earliestNormMatch q.automaton imap (m :: ms) with
      | none =>
          simp only [hem]
          simpa [hempty] using hq
      | some best =>
          rcases best with ⟨oe, name, nstart⟩
          simp only [hem]
          simpa [hempty] using hq
  | nil =>
      by_cases hpos : (0 : Int) < (kN : Int)
      · rw [if_pos (by omega : ((kN : Int) > 0))]
        have hkpos : 0 < kN := by omega
        have hkle : kN ≤ N := by rw [hkN]; omega
        have htoNat : ((kN : Int)).toNat = kN := by omega
        have hlen2 : imap.length = N := by
          have h := normalizeAndMap_length_eq combined
          rw [hnm] at h
          rw [hN, h]
        have hidx : N - kN < (normalizeAndMap combined).2.length := by
          rw [hnm]
          simp only [hlen2]
          omega
        have hdrop := normalizeAndMap_drop combined (N - kN) hidx
        rw [hnm] at hdrop
        simp only [htoNat]
        rw [hdrop]
        rw [List.length_drop, ← hN, hkN]
        omega
      · rw [if_neg (by omega : ¬ ((kN : Int) > 0))]
        simpa [hempty] using hq

/-- C3 (amended): the standard processor's trailing buffer is always
shorter than `maxPatternLength` (given a pattern of positive length),
and a no-match call withholds exactly the last
`min(maxPatternLength − 1, len(combined))` characters; for the
*normalized* variant the same bound holds for the whitespace-stripped
length of the trailing buffer (its raw length can exceed
`maxPatternLength`, see the counterexample); `flush_buffer` and
`reset_states` leave an empty trailing buffer in both variants. -/
theorem c3_amended_trailing_invariant (p : BufferedProcessor)
    (q : BufferedProcessorNorm) (chunk : Str)
    (hp : 1 ≤ p.maxPatternLen) (hq : 1 ≤ q.maxPatternLen) :
    ((p.processChunk chunk).2.trailing.length < p.maxPatternLen) ∧
    ((p.processChunk chunk).1.matched = false →
      (p.processChunk chunk).2.trailing =
        (p.trailing ++ chunk).drop
          ((p.trailing ++ chunk).length -
            min (p.maxPatternLen - 1) (p.trailing ++ chunk).length) ∧
      (p.processChunk chunk).1.output =
        some ((p.trailing ++ chunk).take
          ((p.trailing ++ chunk).length -
            min (p.maxPatternLen - 1) (p.trailing ++ chunk).length))) ∧
    (p.flushBuffer).2.trailing = [] ∧
    (p.resetStates).trailing = [] ∧
    ((normalizeAndMap (q.processChunk chunk).2.trailing).1.length < q.maxPatternLen) ∧
    (q.flushBuffer).2.trailing = [] ∧
    (q.resetStates).trailing = [] := by
  obtain ⟨h1, h2⟩ := processChunkStd_trailing p chunk hp
  refine ⟨h1, h2, ?_, rfl, processChunkNorm_trailing_bound q chunk hq, ?_, rfl⟩
  · unfold BufferedProcessor.flushBuffer
    by_cases ht : p.trailing = []
    · rw [if_neg (by simp [ht])]
      exact ht
    · rw [if_pos ht]
  · unfold BufferedProcessorNorm.flushBuffer
    by_cases ht : q.trailing = []
    · rw [if_neg (by simp [ht])]
      exact ht
    · rw [if_pos ht]

/-- The concrete processors used by the amended C3 witness. -/
def c3wp : BufferedProcessor := (mkBufferedProcessor [("p", "ab".data)]).getD default

/-- The concrete normalized processor used by the amended C3 witness. -/
def c3wq : BufferedProcessorNorm := (mkBufferedProcessorNorm [("p", "ab".data)]).getD default

/-- Witness for the amended C3 at pattern set `{"p": "ab"}` and chunk
`"xy"`, for both processor variants. -/
theorem c3_amended_witness :
    (1 ≤ c3wp.maxPatternLen) ∧ (1 ≤ c3wq.maxPatternLen) ∧
    (((c3wp.processChunk "xy".data).2.trailing.length < c3wp.maxPatternLen) ∧
     ((c3wp.processChunk "xy".data).1.matched = false →
       (c3wp.processChunk "xy".data).2.trailing =
         (c3wp.trailing ++ "xy".data).drop
           ((c3wp.trailing ++ "xy".data).length -
             min (c3wp.maxPatternLen - 1) (c3wp.trailing ++ "xy".data).length) ∧
       (c3wp.processChunk "xy".data).1.output =
         some ((c3wp.trailing ++ "xy".data).take
           ((c3wp.trailing ++ "xy".data).length -
             min (c3wp.maxPatternLen - 1) (c3wp.trailing ++ "xy".data).length))) ∧
     (c3wp.flushBuffer).2.trailing = [] ∧
     (c3wp.resetStates).trailing = [] ∧
     ((normalizeAndMap (c3wq.processChunk "xy".data).2.trailing).1.length < c3wq.maxPatternLen) ∧
     (c3wq.flushBuffer).2.trailing = [] ∧
     (c3wq.resetStates).trailing = []) :=
  ⟨by decide, by decide,
   c3_amended_trailing_invariant c3wp c3wq "xy".data (by decide) (by decide)⟩

/-- Neither branch of the normalized `process_chunk_impl` ever sets the
`error` field of its result. -/
theorem processChunkNorm_error_none (p : BufferedProcessorNorm) (chunk : Str) :
    (p.processChunk chunk).1.error = none := by
  unfold BufferedProcessorNorm.processChunk processChunkImplNorm
  rcases hnm : normalizeAndMap (p.trailing ++ chunk) with ⟨norm, imap⟩
  rcases hsc : p.automaton.automaton.searchChunk norm with ⟨found, auto⟩
  simp only [hnm, hsc]
  cases found with
  | nil => split <;> split <;> rfl
  | cons m ms =>
      simp only
      cases hem : earliestNormMatch p.automaton imap (m :: ms) with
      | none => simp only [hem]
      | some best =>
          rcases best with ⟨oe, name, nstart⟩
          simp only [hem]

/-- C10: when the buffered processor reports a match on a chunk's
content, `detect_chunk` returns `content = ""` and only
`result.text_with_tool_call` is stored in the tool-call buffer; the safe
prefix `result.output` is neither emitted as content nor retained in any
buffer. -/
theorem c10_match_discards_safe_prefix (st : ManualState) (chunk : SSEChunk)
    (choice : SSEChoice) (rest : List SSEChoice) (cc : Str)
    (hch : chunk.choices = choice :: rest)
    (hcc : choice.delta.content = some cc)
    (hne : cc ≠ [])
    (hm : (st.detector.processChunk cc).1.matched = true) :
    manualDetectChunk st chunk =
      ({ state := .partialMatch, content := some [], sseChunk := some chunk },
       { st with
          detector := (st.detector.processChunk cc).2
          inToolCall := true
          toolCallBuffer := (st.detector.processChunk cc).1.text_with_tool_call.getD [] }) := by
  unfold manualDetectChunk
  rw [hch]
  simp only [hcc]
  rw [if_neg hne]
  have herr : ¬ ((st.detector.processChunk cc).1.error ≠ none) := by
    simp [processChunkNorm_error_none]
  rw [if_neg herr, if_pos hm]

/-- A concrete manual-strategy state that is already inside a tool
call: pattern set `{"p": "abc"}` after detecting `"abc"`. -/
def c4wst : ManualState :=
  (manualDetectChunk ((mkManualState [("p", "abc".data)]).getD default)
    (mkTextChunk "abc")).2

/-- Witness for C10 at pattern set `{"p": "abc"}` and chunk `"abc"`. -/
theorem c10_witness :
    manualDetectChunk ((mkManualState [("p", "abc".data)]).getD default) (mkTextChunk "abc")
      = ({ state := .partialMatch, content := some [], sseChunk := some (mkTextChunk "abc") },
         { ((mkManualState [("p", "abc".data)]).getD default) with
            detector := (((mkManualState [("p", "abc".data)]).getD default).detector.processChunk "abc".data).2
            inToolCall := true
            toolCallBuffer :=
              (((mkManualState [("p", "abc".data)]).getD default).detector.processChunk "abc".data).1.text_with_tool_call.getD [] }) :=
  c10_match_discards_safe_prefix ((mkManualState [("p", "abc".data)]).getD default)
    (mkTextChunk "abc") _ [] "abc".data rfl rfl (by decide) (by decide)

/-- One `detect_chunk` step while already in tool-call mode: the
returned content is empty or absent and the mode persists. -/
theorem manualDetectChunk_inToolCall_step (st : ManualState) (chunk : SSEChunk)
    (h : st.inToolCall = true) :
    ((manualDetectChunk st chunk).1.content = none ∨
     (manualDetectChunk st chunk).1.content = some []) ∧
    (manualDetectChunk st chunk).2.inToolCall = true := by
  unfold manualDetectChunk
  cases hch : chunk.choices with
  | nil => exact ⟨Or.inl rfl, h⟩
  | cons choice rest =>
      cases hcc : choice.delta.content with
      | none =>
          simp only [hcc]
          exact ⟨Or.inl trivial, h⟩
      | some cc =>
          simp only [hcc]
          by_cases hne : cc = []
          · rw [if_pos hne]
            exact ⟨Or.inl rfl, h⟩
          · rw [if_neg hne]
            have herr : ¬ ((st.detector.processChunk cc).1.error ≠ none) := by
              simp [processChunkNorm_error_none]
            rw [if_neg herr]
            by_cases hm : (st.detector.processChunk cc).1.matched = true
            · rw [if_pos hm]
              exact ⟨Or.inr rfl, rfl⟩
            · rw [if_neg hm, if_pos h]
              exact ⟨Or.inl rfl, h⟩

/-- C4 (amended): once in tool-call mode, every `detect_chunk` call
until `reset()` returns empty-or-absent content and stays in tool-call
mode; a call whose chunk carries non-empty content accumulates the raw
chunk text into the tool-call buffer — except that a call on which the
pattern processor again reports a match *overwrites* the buffer with
that call's `text_with_tool_call`. -/
theorem c4_amended_suppression_and_accumulation (st : ManualState)
    (chunks : List SSEChunk) (c : SSEChunk) (h : st.inToolCall = true) :
    (∀ r ∈ (manualDetectChunks st chunks).1,
       r.content = none ∨ r.content = some []) ∧
    (manualDetectChunks st chunks).2.inToolCall = true ∧
    (∀ (choice : SSEChoice) (rest : List SSEChoice) (cc : Str),
       c.choices = choice :: rest → choice.delta.content = some cc → cc ≠ [] →
       (manualDetectChunk st c).2.toolCallBuffer =
         (if (st.detector.processChunk cc).1.matched
          then (st.detector.processChunk cc).1.text_with_tool_call.getD []
          else st.toolCallBuffer ++ cc)) := by
  refine ⟨?_, ?_, ?_⟩
  · induction chunks generalizing st with
    | nil => intro r hr; simp [manualDetectChunks] at hr
    | cons ch chs ih =>
        intro r hr
        have hstep := manualDetectChunk_inToolCall_step st ch h
        simp only [manualDetectChunks] at hr
        rcases List.mem_cons.mp hr with hr1 | hr2
        · subst hr1; exact hstep.1
        · exact ih _ hstep.2 r hr2
  · induction chunks generalizing st with
    | nil => exact h
    | cons ch chs ih =>
        have hstep := manualDetectChunk_inToolCall_step st ch h
        simpa only [manualDetectChunks] using ih _ hstep.2
  · intro choice rest cc hch hcc hne
    unfold manualDetectChunk
    rw [hch]
    simp only [hcc]
    rw [if_neg hne]
    have herr : ¬ ((st.detector.processChunk cc).1.error ≠ none) := by
      simp [processChunkNorm_error_none]
    rw [if_neg herr]
    by_cases hm : (st.detector.processChunk cc).1.matched = true
    · rw [if_pos hm, if_pos hm]
    · rw [if_neg hm, if_pos h]
      simp [hm]

/-- C4 (counterexample to the accumulation clause): with pattern
`{"p": "abc"}`, after a first match fills the buffer with `"abc"`, a
second chunk `"xabc"` re-triggers a match and the buffer is *overwritten*
with `"abc"` (that call's `text_with_tool_call`) instead of accumulating
to `"abcxabc"`; content stays suppressed throughout. -/
theorem c4_counterexample_buffer_overwritten :
    ((mkManualState [("p", "abc".data)]).getD default |> fun st0 =>
      let (r1, st1) := manualDetectChunk st0 (mkTextChunk "abc")
      let (r2, st2) := manualDetectChunk st1 (mkTextChunk "xabc")
      (r1.content, st1.inToolCall, st1.toolCallBuffer,
       r2.content, st2.inToolCall, st2.toolCallBuffer))
      = (some [], true, "abc".data, some [], true, "abc".data) ∧
    "abc".data ≠ "abc".data ++ "xabc".data := ⟨rfl, by decide⟩

/-- Witness for the amended C4: the state after a first `"abc"` match,
a follow-up text chunk, and the re-matching chunk `"xabc"`. -/
theorem c4_amended_witness :
    ((∀ r ∈ (manualDetectChunks c4wst [mkTextChunk "hello"]).1,
        r.content = none ∨ r.content = some []) ∧
     (manualDetectChunks c4wst [mkTextChunk "hello"]).2.inToolCall = true ∧
     (∀ (choice : SSEChoice) (rest : List SSEChoice) (cc : Str),
        (mkTextChunk "xabc").choices = choice :: rest →
        choice.delta.content = some cc → cc ≠ [] →
        (manualDetectChunk c4wst (mkTextChunk "xabc")).2.toolCallBuffer =
          (if (c4wst.detector.processChunk cc).1.matched
           then (c4wst.detector.processChunk cc).1.text_with_tool_call.getD []
           else c4wst.toolCallBuffer ++ cc))) :=
  c4_amended_suppression_and_accumulation c4wst [mkTextChunk "hello"]
    (mkTextChunk "xabc") (by decide)

/-- C8 (amended): on a chunk carrying `finish_reason = "tool_calls"`
with a function name accumulated, `detect_chunk` emits `CompleteMatch`
with one `ToolCall` whose arguments are the JSON parse of the
accumulated `partial_args` when that parse yields an object (an empty
`partial_args` yields `{}`, and a failed parse yields
`{"_malformed": partial_args}` — both objects); a successful parse that
yields a non-object instead raises a pydantic validation error out of
`detect_chunk`. -/
theorem c8_amended_vendor_completion (st : VendorState) (chunk : SSEChunk)
    (choice : SSEChoice) (rest : List SSEChoice)
    (hch : chunk.choices = choice :: rest)
    (hf : choice.finishReason = some "tool_calls")
    (hn : nameTruthy (vendorAbsorb st (chunkToolCallData choice)).partialName = true) :
    vendorDetectChunk st chunk =
      (match vendorParsedArgs (vendorAbsorb st (chunkToolCallData choice)).partialArgs with
       | .obj fields =>
           .ok ({ state := .completeMatch
                  toolCalls := some
                    [{ id := vendorCallId (chunkToolCallData choice)
                       function :=
                         { name := (vendorAbsorb st (chunkToolCallData choice)).partialName.getD ""
                           arguments := fields } }]
                  content :=
                    match choice.delta.content with
                    | some c => if c = [] then none else some c
                    | none => none },
                { vendorAbsorb st (chunkToolCallData choice) with
                    collectedToolCalls :=
                      (vendorAbsorb st (chunkToolCallData choice)).collectedToolCalls ++
                        [{ id := vendorCallId (chunkToolCallData choice)
                           function :=
                             { name := (vendorAbsorb st (chunkToolCallData choice)).partialName.getD ""
                               arguments := fields } }]
                    foundCompleteCall := true })
       | _ => .error "validation error: arguments is not a dict") := by
  unfold vendorDetectChunk
  rw [hch]
  have hcond : choice.finishReason = some "tool_calls" ∧
      nameTruthy (vendorAbsorb st (chunkToolCallData choice)).partialName = true := ⟨hf, hn⟩
  cases hv : vendorParsedArgs (vendorAbsorb st (chunkToolCallData choice)).partialArgs <;>
    simp only [hv, mkFunctionDetail, hf, hn, and_self, if_true, reduceIte]

/-- The streamed tool-call fragment used by the C8 witness. -/
def c8wTC : SSEToolCall := { function := some { name := "f", arguments := [] } }

/-- The completion-signal choice used by the C8 witness. -/
def c8wChoice : SSEChoice :=
  { delta := { toolCalls := some [c8wTC] }, finishReason := some "tool_calls" }

/-- The vendor state used by the C8 witness: `partial_args = "{x"`. -/
def c8wSt : VendorState := { partialArgs := "\x7bx".data }

/-- The tool call emitted in the C8 witness (`_malformed` fallback). -/
def c8wCall : ToolCall :=
  { id := "call_generated"
    function := { name := "f", arguments := [("_malformed", .str "\x7bx".data)] } }

/-- Witness for the amended C8: a chunk streaming function name `"f"`
and the completion signal, with `partial_args = "{x"` already
accumulated (the parse fails, so the arguments fall back to the
`_malformed` wrap). -/
theorem c8_amended_witness :
    vendorDetectChunk c8wSt { choices := [c8wChoice] }
      = .ok ({ state := .completeMatch, toolCalls := some [c8wCall], content := none },
             { partialName := some "f"
               partialArgs := "\x7bx".data
               collectedToolCalls := [c8wCall]
               foundCompleteCall := true }) :=
  c8_amended_vendor_completion c8wSt { choices := [c8wChoice] } c8wChoice [] rfl rfl rfl

/-- One-step unfolding of the agent loop at positive fuel. -/
theorem runAgent_succ (oracle : Nat → RoundOutcome) (fuel : Nat) (ctx : StreamCtx) :
    runAgent oracle (fuel + 1) ctx =
      if ctx.currentState = .completed then (ctx, [])
      else
        let (ctx', evs) := stepAgent oracle ctx
        let (ctx'', evs') := runAgent oracle fuel ctx'
        (ctx'', evs ++ evs') := rfl

/-- The agent loop from a `STREAMING` state with `k` re-entries left
before the guard fires: it runs `k` full tool-call cycles, then aborts
with the max-depth stop chunk and completes. -/
theorem runAgent_streaming_cycles (oracle : Nat → RoundOutcome)
    (h : ∀ i, oracle i = .toolCallDetected) :
    ∀ (k c maxI : Nat), c + k = maxI →
    runAgent oracle (4 * k + 2)
        { currentState := .streaming, streamingEntryCount := c,
          maxStreamingIterations := maxI } =
      ({ currentState := .completed, streamingEntryCount := maxI + 1,
         maxStreamingIterations := maxI },
       (List.replicate k cycleEvents).flatten ++
         [.stopChunk (some maxDepthMessage), .stopChunk none]) := by
  intro k
  induction k with
  | zero =>
      intro c maxI hc
      have hgt : c + 1 > maxI := by omega
      rw [show 4 * 0 + 2 = 1 + 1 from rfl]
      rw [runAgent_succ]
      rw [if_neg (by simp)]
      simp only [stepAgent, handleStreaming, if_pos hgt]
      rw [runAgent_succ]
      rw [if_neg (by simp)]
      simp only [stepAgent, runAgent]
      simp
      omega
  | succ k ih =>
      intro c maxI hc
      have hle : ¬ (c + 1 > maxI) := by omega
      rw [show 4 * (k + 1) + 2 = (((4 * k + 2) + 1 + 1) + 1) + 1 by ring]
      rw [runAgent_succ, if_neg (by simp)]
      simp only [stepAgent, handleStreaming, if_neg hle, h (c + 1)]
      rw [runAgent_succ, if_neg (by simp)]
      simp only [stepAgent]
      rw [runAgent_succ, if_neg (by simp)]
      simp only [stepAgent]
      rw [runAgent_succ, if_neg (by simp)]
      simp only [stepAgent]
      rw [ih (c + 1) maxI (by omega)]
      simp [List.replicate_succ, cycleEvents]

/-- C5: with `max_streaming_iterations = N` and every generation round
detecting a tool call, the loop terminates; the model stream is opened
exactly `N` times, and on the entry where the counter exceeds `N` a stop
chunk with the max-depth message is emitted and the agent completes
without opening another stream. -/
theorem c5_max_iterations_bound (N : Nat) (oracle : Nat → RoundOutcome)
    (h : ∀ i, oracle i = .toolCallDetected) :
    (runAgent oracle (4 * N + 2) (initCtx N)).1.currentState = .completed ∧
    (runAgent oracle (4 * N + 2) (initCtx N)).2 =
      (List.replicate N cycleEvents).flatten ++
        [.stopChunk (some maxDepthMessage), .stopChunk none] ∧
    countStreamOpened (runAgent oracle (4 * N + 2) (initCtx N)).2 = N := by
  have hcount : ∀ k : Nat,
      countStreamOpened ((List.replicate k cycleEvents).flatten ++
        [.stopChunk (some maxDepthMessage), .stopChunk none]) = k := by
    intro k
    unfold countStreamOpened
    induction k with
    | zero => rfl
    | succ n ih =>
        rw [List.replicate_succ, List.flatten_cons, List.append_assoc,
          List.countP_append]
        have hone : List.countP (fun e => decide (e = AgentEvent.streamOpened))
            cycleEvents = 1 := rfl
        omega
  have hrun := runAgent_streaming_cycles oracle h N 0 N (by omega)
  have hinit : initCtx N =
      { currentState := .streaming, streamingEntryCount := 0,
        maxStreamingIterations := N } := rfl
  rw [hinit, hrun]
  exact ⟨rfl, rfl, hcount N⟩

/-- Witness for C5 at `N = 2` with the constant tool-call oracle. -/
theorem c5_witness :
    (runAgent (fun _ => RoundOutcome.toolCallDetected) (4 * 2 + 2) (initCtx 2)).1.currentState = .completed ∧
    (runAgent (fun _ => RoundOutcome.toolCallDetected) (4 * 2 + 2) (initCtx 2)).2 =
      (List.replicate 2 cycleEvents).flatten ++
        [.stopChunk (some maxDepthMessage), .stopChunk none] ∧
    countStreamOpened (runAgent (fun _ => RoundOutcome.toolCallDetected) (4 * 2 + 2) (initCtx 2)).2 = 2 :=
  c5_max_iterations_bound 2 (fun _ => RoundOutcome.toolCallDetected) (fun _ => rfl)

/-- History-entry shape tests used to state the C6 bookkeeping. -/
def isToolResultEntry : HistoryEntry → Bool
  | .toolResult _ _ _ => true
  | _ => false

/-- Is the entry an `AssistantMessage` carrying tool calls? -/
def isAssistantToolCallsEntry : HistoryEntry → Bool
  | .assistantToolCalls _ => true
  | _ => false

/-- Is the entry an `AssistantMessage` carrying text content? -/
def isAssistantContentEntry : HistoryEntry → Bool
  | .assistantContent _ => true
  | _ => false

/-- Did `run_tool` return a success payload (rather than a captured
exception)? -/
def runToolOk (registry : ToolRegistry) (tc : ToolCall) : Bool :=
  match runTool registry tc with
  | .ok _ => true
  | .error _ => false

/-- The per-call history segment appended by the zip loop. -/
def perCallSegment (registry : ToolRegistry) (c : ToolCall) : List HistoryEntry :=
  HistoryEntry.assistantToolCalls [c] ::
    (match runTool registry c with
     | .error e =>
         [.assistantContent (("Error executing tool " ++ c.function.name ++ ": ").data ++ e)]
     | .ok payload => [.toolResult c.function.name payload c.id])

/-- The zip loop over the gathered results decomposes into one segment
per captured call. -/
theorem toolLoopAppend_eq_flatMap (registry : ToolRegistry) (calls : List ToolCall) :
    toolLoopAppend calls (executeToolsConcurrently registry calls) =
      calls.flatMap (perCallSegment registry) := by
  induction calls with
  | nil => rfl
  | cons c cs ih =>
      simp only [toolLoopAppend, executeToolsConcurrently, List.map_cons,
        List.zip_cons_cons, List.flatMap_cons] at *
      rw [ih]
      rfl

/-- C6: executing one detection round's captured calls never lets an
exception escape (`_handle_tool_execution` is a total function into the
new history), appends exactly one `AssistantMessage(tool_calls=[call])`
record per call, one `ToolMessage` per non-raising call, and one inline
error `AssistantMessage` per raising call, then moves to
`INTERMEDIATE`. -/
theorem c6_tool_execution_isolation (registry : ToolRegistry) (buffer : Str)
    (calls : List ToolCall) (history : List HistoryEntry) :
    (handleToolExecution registry buffer calls history).2.2 = .intermediate ∧
    (handleToolExecution registry buffer calls history).1 =
      (if pyStrip buffer ≠ [] then history ++ [.assistantContent buffer] else history) ++
        calls.flatMap (perCallSegment registry) ∧
    (calls.flatMap (perCallSegment registry)).countP isAssistantToolCallsEntry =
      calls.length ∧
    (calls.flatMap (perCallSegment registry)).countP isToolResultEntry =
      (calls.filter (runToolOk registry)).length ∧
    (calls.flatMap (perCallSegment registry)).countP isAssistantContentEntry =
      (calls.filter (fun c => ¬ runToolOk registry c)).length := by
  refine ⟨?_, ?_, ?_, ?_, ?_⟩
  · rfl
  · show (if pyStrip buffer ≠ [] then history ++ [.assistantContent buffer] else history) ++
        toolLoopAppend calls (executeToolsConcurrently registry calls) = _
    rw [toolLoopAppend_eq_flatMap]
  · induction calls with
    | nil => rfl
    | cons c cs ih =>
        rw [List.flatMap_cons, List.countP_append, ih]
        unfold perCallSegment
        cases runTool registry c <;>
          simp [isAssistantToolCallsEntry, isToolResultEntry,
            isAssistantContentEntry, List.countP_cons] <;> omega
  · induction calls with
    | nil => rfl
    | cons c cs ih =>
        rw [List.flatMap_cons, List.countP_append, ih, List.filter_cons]
        unfold perCallSegment runToolOk
        cases hrt : runTool registry c <;>
          simp [hrt, isAssistantToolCallsEntry, isToolResultEntry,
            isAssistantContentEntry, List.countP_cons]
        all_goals omega
  · induction calls with
    | nil => rfl
    | cons c cs ih =>
        rw [List.flatMap_cons, List.countP_append, ih, List.filter_cons]
        unfold perCallSegment runToolOk
        cases hrt : runTool registry c <;>
          simp [hrt, isAssistantToolCallsEntry, isToolResultEntry,
            isAssistantContentEntry, List.countP_cons]
        all_goals omega

/-- C9 (amended): only the buffered-processor constructors reject the
empty pattern set (the `max()` over an empty sequence raises
`ValueError`); the bare automaton constructor accepts it, building the
one-state root machine, and zero-length patterns are accepted
everywhere. -/
theorem c9_empty_pattern_set_rejected_only_by_processors
    (ps : List (String × Str)) :
    ((mkBufferedProcessor ps).isSome ↔ ps ≠ []) ∧
    ((mkBufferedProcessorNorm ps).isSome ↔ ps ≠ []) ∧
    (mkAutomaton []).machine = { nextStates := [[]], fail := [0], output := [[]] } := by
  refine ⟨?_, ?_, rfl⟩
  · cases ps with
    | nil => simp [mkBufferedProcessor]
    | cons h t => simp [mkBufferedProcessor]
  · cases ps with
    | nil => simp [mkBufferedProcessorNorm, mkAutomatonNormalized]
    | cons h t => simp [mkBufferedProcessorNorm, mkAutomatonNormalized]

end Flexo
